import Mathlib

/-!
Verification development for the Tdarr plugin
`advanced_audio_tracks_transcode_rename_remove.js`: a shallow embedding of the
rule-based audio-track transformation engine (validator, selector matcher,
title template expander, disposition flag encoder, command synthesizer and
idempotency guard), together with theorems about the engine.

Modelling conventions:
* JavaScript strings are Lean `String`s; the JS runtime helpers the plugin
  calls (`String.prototype.replaceAll`, `String.prototype.includes`,
  `parseInt`, `btoa`, `JSON.stringify`) are embedded as executable Lean
  functions below.
* JS numbers appearing in the engine are integers in all modelled behaviour;
  they are embedded as `Int`/`Nat`.
* The regular-expression engine (`RegExp.prototype.test`,
  `String.prototype.matchAll`) is an external collaborator: the engine is
  parameterised by a test function and a match-all function
  (pattern → flags → input → result), exactly at the two places the source
  builds a `RegExp`.
-/

namespace AdvancedAudio

/-! ### JS string runtime helpers -/

/-- Does `pat` occur at the very start of `s`? (helper for the scan below). -/
def matchesAt : List Char → List Char → Bool
  | [], _ => true
  | _ :: _, [] => false
  | p :: ps, c :: cs => p == c && matchesAt ps cs

/-- Occurrence search over character lists; `containsSub hay pat` is true iff
`pat` occurs contiguously inside `hay` (JS `String.prototype.includes`). -/
def containsSub : List Char → List Char → Bool
  | hay, pat =>
    match hay with
    | [] => matchesAt pat []
    | c :: rest => matchesAt pat (c :: rest) || containsSub rest pat

/-- JS `hay.includes(pat)`. -/
def strIncludes (hay pat : String) : Bool :=
  containsSub hay.data pat.data

/-- One fuel-indexed step of JS `String.prototype.replaceAll`: scan left to
right, replace every non-overlapping occurrence of `pat`, never rescanning
replaced text. Fuel is the length of the scanned list, so it never runs out. -/
def replaceAllAux (pat rep : List Char) : Nat → List Char → List Char
  | 0, s => s
  | _ + 1, [] => []
  | fuel + 1, c :: rest =>
    if matchesAt pat (c :: rest) && !pat.isEmpty then
      rep ++ replaceAllAux pat rep fuel (List.drop (pat.length - 1) rest)
    else
      c :: replaceAllAux pat rep fuel rest

/-- JS `s.replaceAll(pat, rep)` for a non-empty search string (every call site
in the plugin uses a non-empty literal search string). -/
def replaceAll (s pat rep : String) : String :=
  ⟨replaceAllAux pat.data rep.data s.data.length s.data⟩

/-- JS `parseInt` on base-10 input: skip leading whitespace, optional sign,
then the longest digit run; `none` models `NaN`. -/
def parseIntJs (s : String) : Option Int :=
  let t := s.data.dropWhile (fun c => c == ' ' || c == '\t' || c == '\n' || c == '\r')
  let (neg, u) : Bool × List Char :=
    match t with
    | '-' :: rest => (true, rest)
    | '+' :: rest => (false, rest)
    | _ => (false, t)
  let digits := u.takeWhile Char.isDigit
  if digits.isEmpty then none
  else
    let n : Nat := digits.foldl (fun acc c => acc * 10 + (c.toNat - 48)) 0
    some (if neg then -(n : Int) else (n : Int))

/-- ASCII lower-casing of one character (the case conversions of JS reach
only ASCII codec and language names in the modelled documents). -/
def charToLower (c : Char) : Char :=
  if 65 ≤ c.toNat && c.toNat ≤ 90 then Char.ofNat (c.toNat + 32) else c

/-- ASCII upper-casing of one character. -/
def charToUpper (c : Char) : Char :=
  if 97 ≤ c.toNat && c.toNat ≤ 122 then Char.ofNat (c.toNat - 32) else c

/-- JS `s.toLowerCase()` on the ASCII strings the engine lower-cases. -/
def jsToLower (s : String) : String :=
  ⟨s.data.map charToLower⟩

/-- JS `s.toUpperCase()` on the ASCII strings the engine upper-cases. -/
def jsToUpper (s : String) : String :=
  ⟨s.data.map charToUpper⟩

/-- JS `s.startsWith(pre)`. -/
def strStartsWith (s pre : String) : Bool :=
  matchesAt pre.data s.data

/-- JS `s.slice(n)` for a non-negative character offset. -/
def strDropChars (s : String) (n : Nat) : String :=
  ⟨s.data.drop n⟩

/-- Strip trailing `'0'` characters (for fractional kbps rendering). -/
def stripTrailingZeros (cs : List Char) : List Char :=
  (cs.reverse.dropWhile (fun c => c == '0')).reverse

/-- Three-digit zero-padded rendering of `m < 1000`. -/
def pad3 (m : Nat) : List Char :=
  (Nat.toDigits 10 (1000 + m)).drop 1

/-- JS `(n / 1000).toString()` for the non-negative integer operands the
plugin feeds it (bitrates): exact division rendered as a decimal with the
trailing zeros of the fractional part removed, which is the shortest
round-trip formatting JS produces at these magnitudes. -/
def kbpsToString (n : Int) : String :=
  let m := n.toNat
  if m % 1000 == 0 then toString (m / 1000)
  else ⟨(Nat.toDigits 10 (m / 1000)) ++ '.' :: stripTrailingZeros (pad3 (m % 1000))⟩

/-! ### JSON values and the JS runtime encoders -/

/-- Parsed JSON values (the output shape of `JSON.parse`; numbers in all
modelled rule documents are integers). -/
inductive Json where
  | null : Json
  | bool (b : Bool) : Json
  | num (n : Int) : Json
  | str (s : String) : Json
  | arr (xs : List Json) : Json
  | obj (fields : List (String × Json)) : Json

/-- JS `typeof x === 'object' && x !== null`: true for objects and arrays. -/
def isObjTyped : Json → Bool
  | .obj _ => true
  | .arr _ => true
  | _ => false

/-- Property lookup (`x[k]` / `x.hasOwnProperty(k)` on a parsed JSON value);
arrays and primitives have no string-keyed own properties. -/
def getProp : Json → String → Option Json
  | .obj fields, k => (fields.find? (fun f => f.1 == k)).map (·.2)
  | _, _ => none

/-- The `key: value` entries a `for..in` loop visits (empty for non-objects;
array index entries are not modelled, no modelled document uses them). -/
def jsonFields : Json → List (String × Json)
  | .obj fields => fields
  | _ => []

/-- String escaping of `JSON.stringify` restricted to the characters appearing
in modelled documents (backslash and double quote). -/
def stringifyStr (s : String) : String :=
  "\"" ++ replaceAll (replaceAll s "\\" "\\\\") "\"" "\\\"" ++ "\""

/-- Fuel-indexed `JSON.stringify` of a parsed value (fuel is the value's
`sizeOf`, always sufficient). -/
def stringifyJsonF : Nat → Json → String
  | _, .null => "null"
  | _, .bool b => if b then "true" else "false"
  | _, .num n => toString n
  | _, .str s => stringifyStr s
  | 0, _ => ""
  | f + 1, .arr xs => "[" ++ String.intercalate "," (xs.map (stringifyJsonF f)) ++ "]"
  | f + 1, .obj fields =>
    "\x7b" ++
      String.intercalate ","
        (fields.map (fun kv => stringifyStr kv.1 ++ ":" ++ stringifyJsonF f kv.2)) ++
      "\x7d"

/-- Fuel bound for `stringifyJson`; far beyond the nesting depth of any
modelled rule document (fuel is consumed once per nesting level only). -/
def jsonStringifyFuel : Nat := 1000

/-- `JSON.stringify` of a parsed JSON value. -/
def stringifyJson (j : Json) : String :=
  stringifyJsonF jsonStringifyFuel j

/-- The base64 alphabet. -/
def base64Alphabet : List Char :=
  "ABCDEFGHIJKLMNOPQRSTUVWXYZabcdefghijklmnopqrstuvwxyz0123456789+/".data

/-- The base64 digit for a 6-bit value. -/
def b64Digit (n : Nat) : Char :=
  base64Alphabet.getD n 'A'

/-- Base64 encoding of a byte list (the behaviour of JS `btoa` on its
byte-per-character input). -/
def btoaBytes : List Nat → List Char
  | [] => []
  | [a] => [b64Digit (a / 4), b64Digit (a % 4 * 16), '=', '=']
  | [a, b] => [b64Digit (a / 4), b64Digit (a % 4 * 16 + b / 16), b64Digit (b % 16 * 4), '=']
  | a :: b :: c :: rest =>
    b64Digit (a / 4) :: b64Digit (a % 4 * 16 + b / 16) ::
      b64Digit (b % 16 * 4 + c / 64) :: b64Digit (c % 64) :: btoaBytes rest

/-- JS `btoa` on strings whose characters are all below U+0100 (the plugin
feeds it `JSON.stringify` output). -/
def btoa (s : String) : String :=
  ⟨btoaBytes (s.data.map Char.toNat)⟩

/-! ### Data model: probed streams and validated rules -/

/-- One stream of the probed file (`ffProbeData.streams[k]`). Optional ffprobe
fields (`bit_rate`, `tags.language`, `tags.title`) are `Option`s; a missing
`codec_name` is the empty string (indistinguishable from `""` at every use
site, both being falsy). Dispositions map flag names to ffprobe's 0/1. -/
structure Stream where
  index : Nat := 0
  codec_type : String
  codec_name : String := ""
  channels : Nat := 0
  bit_rate : Option Nat := none
  language : Option String := none
  title : Option String := none
  channel_layout : String := ""
  disposition : List (String × Int) := []
deriving DecidableEq

/-- The probed file. `ffProbeData` is `none` when `file.ffProbeData` or
`file.ffProbeData.streams` is missing; `copyright` is
`ffProbeData.format.tags.COPYRIGHT || ''` (default empty). -/
structure MediaFile where
  container : String := "mkv"
  ffProbeData : Option (List Stream) := none
  copyright : String := ""
deriving DecidableEq

/-- A rule's `match.title` object after validation. -/
structure TitleMatch where
  pattern : String
  caseSensitive : Option Bool := none
deriving DecidableEq

/-- The `match.codecs` selector: either a JSON array (membership is tested
with JS `includes`, i.e. strict equality against each element, so non-string
elements simply never match) or a string (`"*"` or `"!codec"`). -/
inductive CodecsSpec where
  | arr (xs : List Json) : CodecsSpec
  | str (s : String) : CodecsSpec

/-- A string-or-array-of-strings selector (`match.channels`,
`match.bitrate`). The source validates only that the field is a string or an
array; array elements that are not strings make it throw inside
`matchesIntCondition` at match time, so such documents are outside the
model and the validator reports them. -/
inductive CondSpec where
  | str (s : String) : CondSpec
  | arr (xs : List String) : CondSpec
deriving DecidableEq

/-- The `match.languages` selector: a string or an array (membership via JS
`includes`, strict equality, so non-string elements never match). -/
inductive LangSpec where
  | str (s : String) : LangSpec
  | arr (xs : List Json) : LangSpec

/-- JS truthiness of the optional string-or-array selectors: absent and `""`
are falsy, all arrays are truthy. -/
def CondSpec.truthy : Option CondSpec → Bool
  | none => false
  | some (.str s) => !(s == "")
  | some (.arr _) => true

/-- JS truthiness for `match.languages`. -/
def LangSpec.truthy : Option LangSpec → Bool
  | none => false
  | some (.str s) => !(s == "")
  | some (.arr _) => true

/-- A validated `match` object. -/
structure MatchSpec where
  codecs : CodecsSpec
  channels : Option CondSpec := none
  bitrate : Option CondSpec := none
  languages : Option LangSpec := none
  dispositions : Option (List (String × Json)) := none
  title : Option TitleMatch := none

/-- A validated `copy` operation. -/
structure CopyOp where
  title : Option String := none
  dispositions : Option (List (String × Bool)) := none
deriving DecidableEq

/-- A validated `transcode` operation. -/
structure TransOp where
  codec : String
  channels : Option Int := none
  bitrate : Option Int := none
  title : Option String := none
  dispositions : Option (List (String × Bool)) := none
  filters : Option String := none
deriving DecidableEq

/-- A validated operation. The source tests `operation.hasOwnProperty('copy')`
before `'transcode'`, both at validation and (via truthiness) at execution,
so an object carrying both keys behaves as its `copy` part and the tagged
union is faithful. -/
inductive Operation where
  | copy (c : CopyOp) : Operation
  | transcode (t : TransOp) : Operation

/-- A validated rule. `name` is never validated and only feeds logging and
the watermark serialisation; it is kept when it is a JSON string (the only
shape occurring in modelled documents). The source field `match` is a Lean
keyword and is embedded as `matchSpec`. -/
structure Rule where
  name : Option String := none
  matchSpec : MatchSpec
  operations : List Operation

/-! ### Rule Set Validator (`validateTranscodeRules`) -/

/-- Validate one `match.title` object, normalising escaped backslashes in the
pattern exactly as the source mutates it. -/
def validateTitleMatch (i : Nat) (t : Json) : Except String TitleMatch :=
  if !(isObjTyped t) then
    .error ("title property in rule at index " ++ toString i ++ " must be an object.")
  else
    match getProp t "pattern" with
    | none => .error ("title property in rule at index " ++ toString i ++ " is missing pattern property.")
    | some p =>
      match p with
      | .str pat =>
        match getProp t "caseSensitive" with
        | none => .ok { pattern := replaceAll pat "\\\\" "\\", caseSensitive := none }
        | some (.bool b) => .ok { pattern := replaceAll pat "\\\\" "\\", caseSensitive := some b }
        | some _ => .error ("caseSensitive property in rule at index " ++ toString i ++ " must be a boolean.")
      | _ => .error ("pattern property in rule at index " ++ toString i ++ " must be a string.")

/-- Validate a string-or-array selector field (`channels` / `bitrate`). -/
def validateCondSpec (fieldName : String) (i : Nat) (v : Json) : Except String CondSpec :=
  match v with
  | .str s => .ok (.str s)
  | .arr xs =>
    match xs.mapM (fun x => match x with | Json.str s => some s | _ => none) with
    | some ss => .ok (.arr ss)
    | none => .error (fieldName ++ " selector array in rule at index " ++ toString i ++ " holds a non-string entry (the source would throw at match time; not modelled).")
  | _ => .error (fieldName ++ " property in rule at index " ++ toString i ++ " must be a string or an array.")

/-- Validate a disposition override map (`key: boolean` pairs). -/
def validateBoolMap (opKind : String) (j i : Nat) (d : Json) : Except String (List (String × Bool)) :=
  if !(isObjTyped d) then
    .error ("dispositions property in " ++ opKind ++ " operation at index " ++ toString j ++ " in rule at index " ++ toString i ++ " must be an object.")
  else
    match (jsonFields d).mapM (fun kv => match kv.2 with | Json.bool b => some (kv.1, b) | _ => none) with
    | some flags => .ok flags
    | none => .error ("dispositions object in " ++ opKind ++ " operation at index " ++ toString j ++ " rule at index " ++ toString i ++ " must hold boolean values.")

/-- Validate one `match` object. -/
def validateMatch (i : Nat) (m : Json) : Except String MatchSpec :=
  if !(isObjTyped m) then
    .error ("Match property in rule at index " ++ toString i ++ " is not an object.")
  else
    match getProp m "codecs" with
    | none => .error ("Match property in rule at index " ++ toString i ++ " is missing codecs property.")
    | some codecsJson => do
      let codecs : CodecsSpec ←
        match codecsJson with
        | .arr xs => .ok (.arr xs)
        | .str s =>
          if s == "*" || strStartsWith s "!" then .ok (.str s)
          else .error ("codecs property in rule at index " ++ toString i ++ " must be an array, a wildcard, or a negated codec.")
        | _ => .error ("codecs property in rule at index " ++ toString i ++ " must be an array, a wildcard, or a negated codec.")
      let channels : Option CondSpec ←
        match getProp m "channels" with
        | none => .ok none
        | some v => (validateCondSpec "channels" i v).map some
      let bitrate : Option CondSpec ←
        match getProp m "bitrate" with
        | none => .ok none
        | some v => (validateCondSpec "bitrate" i v).map some
      let languages : Option LangSpec ←
        match getProp m "languages" with
        | none => .ok none
        | some (.str s) => .ok (some (.str s))
        | some (.arr xs) => .ok (some (.arr xs))
        | some _ => .error ("languages property in rule at index " ++ toString i ++ " must be a string or an array.")
      let dispositions : Option (List (String × Json)) ←
        match getProp m "dispositions" with
        | none => .ok none
        | some d =>
          if isObjTyped d then .ok (some (jsonFields d))
          else .error ("dispositions property in rule at index " ++ toString i ++ " must be an object.")
      let title : Option TitleMatch ←
        match getProp m "title" with
        | none => .ok none
        | some t => (validateTitleMatch i t).map some
      .ok { codecs, channels, bitrate, languages, dispositions, title }

/-- Validate one operation object. -/
def validateOperation (i j : Nat) (op : Json) : Except String Operation :=
  if !(isObjTyped op) then
    .error ("Operation at index " ++ toString j ++ " in rule at index " ++ toString i ++ " is not an object.")
  else
    match getProp op "copy" with
    | some c =>
      if !(isObjTyped c) then
        .error ("copy operation at index " ++ toString j ++ " in rule at index " ++ toString i ++ " must be an object.")
      else do
        let title : Option String ←
          match getProp c "title" with
          | none => .ok none
          | some (.str s) => .ok (some s)
          | some _ => .error ("title property in copy operation at index " ++ toString j ++ " in rule at index " ++ toString i ++ " must be a string.")
        let dispositions : Option (List (String × Bool)) ←
          match getProp c "dispositions" with
          | none => .ok none
          | some d => (validateBoolMap "copy" j i d).map some
        .ok (.copy { title, dispositions })
    | none =>
      match getProp op "transcode" with
      | some t =>
        if !(isObjTyped t) then
          .error ("transcode operation at index " ++ toString j ++ " in rule at index " ++ toString i ++ " must be an object.")
        else do
          let codec : String ←
            match getProp t "codec" with
            | none => .error ("transcode operation at index " ++ toString j ++ " in rule at index " ++ toString i ++ " is missing codec property.")
            | some (.str s) => .ok s
            | some _ => .error ("codec property in transcode operation at index " ++ toString j ++ " in rule at index " ++ toString i ++ " must be a string.")
          let channels : Option Int ←
            match getProp t "channels" with
            | none => .ok none
            | some (.num n) => .ok (some n)
            | some _ => .error ("channels property in transcode operation at index " ++ toString j ++ " in rule at index " ++ toString i ++ " must be a number.")
          let bitrate : Option Int ←
            match getProp t "bitrate" with
            | none => .ok none
            | some (.num n) => .ok (some n)
            | some _ => .error ("bitrate property in transcode operation at index " ++ toString j ++ " in rule at index " ++ toString i ++ " must be a number.")
          let title : Option String ←
            match getProp t "title" with
            | none => .ok none
            | some (.str s) => .ok (some s)
            | some _ => .error ("title property in transcode operation at index " ++ toString j ++ " in rule at index " ++ toString i ++ " must be a string.")
          let dispositions : Option (List (String × Bool)) ←
            match getProp t "dispositions" with
            | none => .ok none
            | some d => (validateBoolMap "transcode" j i d).map some
          let filters : Option String ←
            match getProp t "filters" with
            | none => .ok none
            | some (.str s) => .ok (some s)
            | some _ => .error ("filters property in transcode operation at index " ++ toString j ++ " in rule at index " ++ toString i ++ " must be a string.")
          .ok (.transcode { codec, channels, bitrate, title, dispositions, filters })
      | none =>
        .error ("Operation at index " ++ toString j ++ " in rule at index " ++ toString i ++ " must have either copy or transcode property.")

/-- Validate an operations list. -/
def validateOperations (i : Nat) : Nat → List Json → Except String (List Operation)
  | _, [] => .ok []
  | j, op :: rest => do
    let o ← validateOperation i j op
    let os ← validateOperations i (j + 1) rest
    .ok (o :: os)

/-- Validate one rule object. -/
def validateRule (i : Nat) (rule : Json) : Except String Rule :=
  if !(isObjTyped rule) then
    .error ("Rule at index " ++ toString i ++ " is not an object.")
  else
    match getProp rule "match", getProp rule "operations" with
    | some m, some ops => do
      let matchSpec ← validateMatch i m
      let operations ←
        match ops with
        | .arr xs => validateOperations i 0 xs
        | _ => .error ("Operations property in rule at index " ++ toString i ++ " must be an array.")
      let name : Option String :=
        match getProp rule "name" with
        | some (.str s) => some s
        | _ => none
      .ok { name, matchSpec, operations }
    | _, _ =>
      .error ("Rule at index " ++ toString i ++ " is missing match or operations property.")

/-- Validate a rules list, positionally. -/
def validateRuleList : Nat → List Json → Except String (List Rule)
  | _, [] => .ok []
  | i, r :: rest =>
    match validateRule i r with
    | .error e => .error e
    | .ok rule =>
      match validateRuleList (i + 1) rest with
      | .error e => .error e
      | .ok rules => .ok (rule :: rules)

/-- `validateTranscodeRules`: structural validation of the parsed rule
document; an error string on any violation, the typed rule set otherwise
(`JSON.parse` itself is a runtime builtin; its failure also surfaces as the
error branch in the source and is outside the parsed-document model). -/
def validateTranscodeRules (doc : Json) : Except String (List Rule) :=
  match doc with
  | .arr rules => validateRuleList 0 rules
  | _ => .error "Expected a JSON array of rules."

/-! ### Selector Matcher (`matchesIntCondition`, `trackMatches`) -/

/-- `matchesIntCondition(value, condition)`: compare `value` against a
condition string; a `parseInt` failure (`NaN`) makes every comparison false. -/
def matchesIntCondition (value : Int) (condition : String) : Bool :=
  if strStartsWith condition "<=" then
    match parseIntJs (strDropChars condition 2) with
    | some n => value ≤ n
    | none => false
  else if strStartsWith condition ">=" then
    match parseIntJs (strDropChars condition 2) with
    | some n => value ≥ n
    | none => false
  else if strStartsWith condition "<" then
    match parseIntJs (strDropChars condition 1) with
    | some n => value < n
    | none => false
  else if strStartsWith condition ">" then
    match parseIntJs (strDropChars condition 1) with
    | some n => value > n
    | none => false
  else
    match parseIntJs condition with
    | some n => value == n
    | none => false

/-- JS `xs.includes(s)` where `xs` holds parsed JSON values and `s` is a
string: strict equality, so only string elements can match. -/
def jsIncludesStr (xs : List Json) (s : String) : Bool :=
  xs.any (fun x => match x with | Json.str t => t == s | _ => false)

/-- The codec test of `trackMatches` (source line 280-281): a track fails iff
the codecs selector is an array not containing the lowercased track codec, or
a non-wildcard string whose tail equals the lowercased track codec
(case-insensitively) — i.e. membership lowercases only the track side, while
negation lowercases both sides. -/
def codecTestPasses (codecName : String) : CodecsSpec → Bool
  | .arr xs => jsIncludesStr xs (jsToLower codecName)
  | .str s => s == "*" || !(jsToLower codecName == jsToLower (strDropChars s 1))

/-- The condition-list test for `channels`/`bitrate`: every condition of the
selector must hold (a lone string is wrapped into a one-element list). -/
def condSpecPasses (value : Int) : CondSpec → Bool
  | .str s => matchesIntCondition value s
  | .arr ss => ss.all (matchesIntCondition value)

/-- `matchesIntCondition` applied to a possibly-missing track value: with the
value `undefined`, every JS comparison and the strict equality are false. -/
def matchesIntConditionOpt : Option Nat → String → Bool
  | some v, cond => matchesIntCondition (v : Int) cond
  | none, _ => false

/-- The condition-list test against a possibly-missing track value: each
condition is tested separately (so an empty condition array passes even when
the value is missing, exactly as the source loop does). -/
def condSpecPassesOpt (value : Option Nat) : CondSpec → Bool
  | .str s => matchesIntConditionOpt value s
  | .arr ss => ss.all (matchesIntConditionOpt value)

/-- The `languages` membership test. -/
def langSpecPasses (lang : String) : LangSpec → Bool
  | .str s => s == lang
  | .arr xs => jsIncludesStr xs lang

/-- JS strict equality between a matched disposition value from the rule
document and ffprobe's numeric disposition value. -/
def jsStrictEqNum (v : Json) (n : Int) : Bool :=
  match v with
  | .num m => m == n
  | _ => false

/-- `trackMatches(trackData, matchRule)`. `regexTest pattern flags input`
embeds `new RegExp(pattern, flags).test(input)`. -/
def trackMatches (regexTest : String → String → String → Bool)
    (track : Stream) (matchRule : MatchSpec) : Bool :=
  if !(codecTestPasses track.codec_name matchRule.codecs) then false
  else if CondSpec.truthy matchRule.channels &&
      !(match matchRule.channels with
        | some c => condSpecPasses (track.channels : Int) c
        | none => true) then false
  else if CondSpec.truthy matchRule.bitrate &&
      !(match matchRule.bitrate with
        | some c => condSpecPassesOpt track.bit_rate c
        | none => true) then false
  else if LangSpec.truthy matchRule.languages &&
      !(match matchRule.languages with
        | some l => langSpecPasses (track.language.getD "und") l
        | none => true) then false
  else
    let dispositionsFail : Bool :=
      match matchRule.dispositions with
      | some reqs =>
        !(reqs.all (fun kv =>
          match track.disposition.find? (fun d => d.1 == kv.1) with
          | some d => jsStrictEqNum kv.2 d.2
          | none => false))
      | none => false
    if dispositionsFail then false
    else
      let titleFail : Bool :=
        match matchRule.title with
        | some mt =>
          let flags := if mt.caseSensitive.getD false then "" else "i"
          !(regexTest mt.pattern flags (track.title.getD ""))
        | none => false
      if titleFail then false
      else true

/-! ### Title Template Expander (`getFancyChannels`, `getNewTrackTitle`) -/

/-- `getFancyChannels(channelsCount)`. -/
def getFancyChannels (channels : Int) : String :=
  if channels == 1 then "Mono"
  else if channels == 2 then "Stereo"
  else toString (channels - 1) ++ ".1"

/-- The fields `getNewTrackTitle` reads off the operation object it receives
(`operation.title`, `operation.codec`, `operation.channels`); `codec` and
`channels` are absent (`undefined`) when the operation is a copy. -/
structure OpTitleFields where
  title : String
  codec : Option String := none
  channels : Option Int := none

/-- JS truthiness of an optional number (absent and `0` are falsy). -/
def truthyNum : Option Int → Bool
  | none => false
  | some n => !(n == 0)

/-- JS truthiness of an optional string (absent and `""` are falsy). -/
def truthyStr : Option String → Bool
  | none => false
  | some s => !(s == "")

/-- The capture-group pass of `getNewTrackTitle`: for each global match, in
order, substitute every numbered placeholder with that match's capture group
of the same index. -/
def captureSubstitutions (ms : List (List String)) (t0 : String) : String :=
  ms.foldl
    (fun acc groups =>
      (groups.enum).foldl
        (fun a ig => replaceAll a ("\x7b" ++ toString (ig.1 + 1) ++ "\x7d") ig.2)
        acc)
    t0

/-- The derived-tag pass of `getNewTrackTitle`: every substitution after the
capture groups, in source order, ending with the mandatory comma/double-quote
sanitisation. -/
def expandDerivedTags (track : Stream) (operation : OpTitleFields)
    (bitrate : Option Int) (t1 : String) : String :=
  let trackTitle := track.title.getD ""
  let t2 := replaceAll t1 "\x7btitle\x7d" trackTitle
  let lang := track.language.getD "und"
  let t3 := replaceAll t2 "\x7blang\x7d" (jsToLower lang)
  let t4 := replaceAll t3 "\x7bLANG\x7d" (jsToUpper lang)
  let t5 := replaceAll t4 "\x7bi_codec\x7d" (jsToLower track.codec_name)
  let t6 := replaceAll t5 "\x7bi_CODEC\x7d" (jsToUpper track.codec_name)
  let codecName :=
    match operation.codec with
    | some c => if !(c == "") && !(c == "copy") then c else track.codec_name
    | none => track.codec_name
  let t7 := replaceAll t6 "\x7bo_codec\x7d" (jsToLower codecName)
  let t8 := replaceAll t7 "\x7bo_CODEC\x7d" (jsToUpper codecName)
  let t9 := replaceAll t8 "\x7bi_channels\x7d" (toString track.channels)
  let t10 := replaceAll t9 "\x7bi_channels_fancy\x7d" (getFancyChannels (track.channels : Int))
  let t11 := replaceAll t10 "\x7bi_channel_layout\x7d" track.channel_layout
  let outputChannels : Int :=
    if truthyNum operation.channels then operation.channels.getD 0
    else (track.channels : Int)
  let t12 := replaceAll t11 "\x7bo_channels\x7d" (toString outputChannels)
  let t13 := replaceAll t12 "\x7bo_channels_fancy\x7d" (getFancyChannels outputChannels)
  let t14 :=
    match track.bit_rate with
    | some br =>
      if !(br == 0) then
        replaceAll (replaceAll t13 "\x7bi_bitrate\x7d" (toString br))
          "\x7bi_bitrate_kbps\x7d" (kbpsToString (br : Int))
      else t13
    | none => t13
  let t15 :=
    if truthyNum bitrate then
      let br := bitrate.getD 0
      replaceAll (replaceAll t14 "\x7bo_bitrate\x7d" (toString br))
        "\x7bo_bitrate_kbps\x7d" (kbpsToString br)
    else t14
  let t16 := replaceAll t15 "," "‚"
  replaceAll t16 "\"" "″"

/-- `getNewTrackTitle(track, matchTitle, operation, bitrate)`.
`matchAllFn pattern flags input` embeds
`[...input.matchAll(new RegExp(pattern, flags))].map(m => m.slice(1))`: the
list of capture-group lists of each global match, in match order. The body is
the capture-group pass followed by the derived-tag pass, exactly the two
sections of the source function. -/
def getNewTrackTitle (matchAllFn : String → String → String → List (List String))
    (track : Stream) (matchTitle : Option TitleMatch)
    (operation : OpTitleFields) (bitrate : Option Int) : String :=
  let trackTitle := track.title.getD ""
  let t0 := operation.title
  let t1 :=
    match matchTitle with
    | some mt =>
      let flags := if mt.caseSensitive.getD false then "g" else "gi"
      captureSubstitutions (matchAllFn mt.pattern flags trackTitle) t0
    | none => t0
  expandDerivedTags track operation bitrate t1

/-! ### Disposition Flag Encoder (`getDispositionFlags`) -/

/-- `getDispositionFlags(dispositions)`: build the flag strings with the
`isFirstFlag` marker that is cleared after the first entry regardless of its
value, then join with the empty separator. -/
def getDispositionFlags (dispositions : List (String × Bool)) : String :=
  let result :=
    dispositions.foldl
      (fun (acc : List String × Bool) fv =>
        (acc.1 ++ [if fv.2 then (if acc.2 then fv.1 else "+" ++ fv.1) else "-" ++ fv.1],
         false))
      ([], true)
  String.join result.1

/-! ### Command Synthesizer -/

/-- The codec channel ceilings (`codecChannelsLimits`), looked up by the exact
target codec string. -/
def codecChannelsLimits (codec : String) : Option Int :=
  if codec == "ac3" then some 6
  else if codec == "mp3" then some 2
  else none

/-- The codec bitrate ceilings (`codecBitrateLimits`). -/
def codecBitrateLimits (codec : String) : Option Int :=
  if codec == "ac3" then some 640000
  else if codec == "mp3" then some 320000
  else none

/-- One entry pushed onto `audioTracksCommands`, in structured form. Each
constructor mirrors one `push` site; the payload fields are exactly the
values the source interpolates into the command string. -/
inductive ACmd where
  | mapCopy (inIdx outIdx : Nat) : ACmd
  | mapInput (inIdx : Nat) : ACmd
  | setCodec (outIdx : Nat) (codec : String) : ACmd
  | setChannels (outIdx : Nat) (channels : Int) : ACmd
  | setBitrate (outIdx : Nat) (bitrate : Int) : ACmd
  | setTitle (outIdx : Nat) (title : String) : ACmd
  | setDispositions (outIdx : Nat) (flags : String) : ACmd
  | setFilters (outIdx : Nat) (filters : String) : ACmd
deriving DecidableEq

/-- The commands a `copy` operation pushes for one track. -/
def applyCopyOp (matchAllFn : String → String → String → List (List String))
    (track : Stream) (matchTitle : Option TitleMatch) (c : CopyOp)
    (inIdx outIdx : Nat) : List ACmd :=
  [ACmd.mapCopy inIdx outIdx] ++
  (if truthyStr c.title then
    [ACmd.setTitle outIdx
      (getNewTrackTitle matchAllFn track matchTitle
        { title := c.title.getD "" } (track.bit_rate.map (fun n => (n : Int))))]
  else []) ++
  (match c.dispositions with
   | some d => [ACmd.setDispositions outIdx (getDispositionFlags d)]
   | none => [])

/-- The commands a `transcode` operation pushes for one track: codec
resolution, the AAC eight-channel safety override, the channel ceiling clamp,
the bitrate ceiling clamp (explicit bitrate only), title, dispositions and
filters, in the source's push order. -/
def applyTransOp (matchAllFn : String → String → String → List (List String))
    (track : Stream) (matchTitle : Option TitleMatch) (t : TransOp)
    (inIdx outIdx : Nat) : List ACmd :=
  let targetCodec := if t.codec == "copy" then track.codec_name else t.codec
  let channels0 : Int :=
    if truthyNum t.channels then t.channels.getD 0 else (track.channels : Int)
  let forceChannels : Bool :=
    jsToLower targetCodec == "aac" && track.channels > 6 && !(truthyNum t.channels)
  let channels1 : Int := if forceChannels then 8 else channels0
  let emitChannels : Bool :=
    truthyNum t.channels || !(channels1 == (track.channels : Int)) ||
      (match codecChannelsLimits targetCodec with
       | some limit => channels1 > limit
       | none => false) ||
      forceChannels
  let channels2 : Int :=
    match codecChannelsLimits targetCodec with
    | some limit => if channels1 > limit then limit else channels1
    | none => channels1
  let chCmds := if emitChannels then [ACmd.setChannels outIdx channels2] else []
  let bitrate : Option Int :=
    if truthyNum t.bitrate then
      match codecBitrateLimits targetCodec with
      | some limit => if t.bitrate.getD 0 > limit then some limit else t.bitrate
      | none => t.bitrate
    else track.bit_rate.map (fun n => (n : Int))
  let brCmds : List ACmd :=
    if truthyNum t.bitrate then [ACmd.setBitrate outIdx (bitrate.getD 0)] else []
  let titleCmds :=
    if truthyStr t.title then
      [ACmd.setTitle outIdx
        (getNewTrackTitle matchAllFn track matchTitle
          { title := t.title.getD "", codec := some t.codec, channels := t.channels }
          bitrate)]
    else []
  let dispCmds :=
    match t.dispositions with
    | some d => [ACmd.setDispositions outIdx (getDispositionFlags d)]
    | none => []
  let filtCmds :=
    if truthyStr t.filters then [ACmd.setFilters outIdx (t.filters.getD "")] else []
  [ACmd.mapInput inIdx, ACmd.setCodec outIdx targetCodec] ++
    chCmds ++ brCmds ++ titleCmds ++ dispCmds ++ filtCmds

/-- The commands one operation pushes. -/
def applyOperation (matchAllFn : String → String → String → List (List String))
    (track : Stream) (matchTitle : Option TitleMatch)
    (inIdx outIdx : Nat) : Operation → List ACmd
  | .copy c => applyCopyOp matchAllFn track matchTitle c inIdx outIdx
  | .transcode t => applyTransOp matchAllFn track matchTitle t inIdx outIdx

/-- Run a matched rule's operation list: the output index advances once per
operation; the pushed commands accumulate in order. -/
def applyOperations (matchAllFn : String → String → String → List (List String))
    (track : Stream) (matchTitle : Option TitleMatch) (inIdx : Nat)
    (outIdx : Nat) (ops : List Operation) : Nat × List ACmd :=
  ops.foldl
    (fun acc op =>
      (acc.1 + 1, acc.2 ++ applyOperation matchAllFn track matchTitle inIdx acc.1 op))
    (outIdx, [])

/-- The loop-carried state of the per-track pass: input index, output index,
accumulated audio commands and the `requireTranscode` marker. -/
structure SynthState where
  inIdx : Nat := 0
  outIdx : Nat := 0
  cmds : List ACmd := []
  requireTranscode : Bool := false
deriving DecidableEq

/-- Process one audio track: find the first matching rule; drop the track on
an empty operations list, apply the operations otherwise, and copy the track
verbatim when no rule matches. The input index advances unconditionally. -/
def processTrack (regexTest : String → String → String → Bool)
    (matchAllFn : String → String → String → List (List String))
    (rules : List Rule) (st : SynthState) (track : Stream) : SynthState :=
  match rules.find? (fun r => trackMatches regexTest track r.matchSpec) with
  | some r =>
    if r.operations.isEmpty then
      { st with inIdx := st.inIdx + 1 }
    else
      let (outIdx, newCmds) :=
        applyOperations matchAllFn track r.matchSpec.title st.inIdx st.outIdx r.operations
      { inIdx := st.inIdx + 1, outIdx := outIdx,
        cmds := st.cmds ++ newCmds, requireTranscode := true }
  | none =>
    { st with
      inIdx := st.inIdx + 1, outIdx := st.outIdx + 1,
      cmds := st.cmds ++ [ACmd.mapCopy st.inIdx st.outIdx] }

/-- The per-track pass over all audio tracks. -/
def processTracks (regexTest : String → String → String → Bool)
    (matchAllFn : String → String → String → List (List String))
    (rules : List Rule) (tracks : List Stream) : SynthState :=
  tracks.foldl (processTrack regexTest matchAllFn rules) {}

/-! ### Idempotency Guard (watermark) -/

/-- Serialisation of a validated operation for the watermark (the typed view
of `JSON.stringify` on the parsed operation object). -/
def stringifyOperation : Operation → String
  | .copy c =>
    "\x7b\"copy\":\x7b" ++
      String.intercalate ","
        ((match c.title with
          | some t => ["\"title\":" ++ stringifyStr t]
          | none => []) ++
         (match c.dispositions with
          | some d =>
            ["\"dispositions\":\x7b" ++
              String.intercalate ","
                (d.map (fun kv =>
                  stringifyStr kv.1 ++ ":" ++ (if kv.2 then "true" else "false"))) ++
              "\x7d"]
          | none => [])) ++
      "\x7d\x7d"
  | .transcode t =>
    "\x7b\"transcode\":\x7b" ++
      String.intercalate ","
        (["\"codec\":" ++ stringifyStr t.codec] ++
         (match t.channels with
          | some n => ["\"channels\":" ++ toString n]
          | none => []) ++
         (match t.bitrate with
          | some n => ["\"bitrate\":" ++ toString n]
          | none => []) ++
         (match t.title with
          | some s => ["\"title\":" ++ stringifyStr s]
          | none => []) ++
         (match t.dispositions with
          | some d =>
            ["\"dispositions\":\x7b" ++
              String.intercalate ","
                (d.map (fun kv =>
                  stringifyStr kv.1 ++ ":" ++ (if kv.2 then "true" else "false"))) ++
              "\x7d"]
          | none => []) ++
         (match t.filters with
          | some s => ["\"filters\":" ++ stringifyStr s]
          | none => [])) ++
      "\x7d\x7d"

/-- Serialisation of a validated match object for the watermark. -/
def stringifyMatchSpec (m : MatchSpec) : String :=
  "\x7b" ++
    String.intercalate ","
      (["\"codecs\":" ++
        (match m.codecs with
         | .arr xs => "[" ++ String.intercalate "," (xs.map stringifyJson) ++ "]"
         | .str s => stringifyStr s)] ++
       (match m.channels with
        | some (.str s) => ["\"channels\":" ++ stringifyStr s]
        | some (.arr xs) =>
          ["\"channels\":[" ++ String.intercalate "," (xs.map stringifyStr) ++ "]"]
        | none => []) ++
       (match m.bitrate with
        | some (.str s) => ["\"bitrate\":" ++ stringifyStr s]
        | some (.arr xs) =>
          ["\"bitrate\":[" ++ String.intercalate "," (xs.map stringifyStr) ++ "]"]
        | none => []) ++
       (match m.languages with
        | some (.str s) => ["\"languages\":" ++ stringifyStr s]
        | some (.arr xs) =>
          ["\"languages\":[" ++ String.intercalate "," (xs.map stringifyJson) ++ "]"]
        | none => []) ++
       (match m.dispositions with
        | some d =>
          ["\"dispositions\":\x7b" ++
            String.intercalate ","
              (d.map (fun kv => stringifyStr kv.1 ++ ":" ++ stringifyJson kv.2)) ++
            "\x7d"]
        | none => []) ++
       (match m.title with
        | some t =>
          ["\"title\":\x7b\"pattern\":" ++ stringifyStr t.pattern ++
            (match t.caseSensitive with
             | some b => ",\"caseSensitive\":" ++ (if b then "true" else "false")
             | none => "") ++ "\x7d"]
        | none => [])) ++
    "\x7d"

/-- Serialisation of the validated rule set: the typed view of
`JSON.stringify(transcodeRules)` (field order fixed to the documented field
order of the rule format). -/
def stringifyRules (rules : List Rule) : String :=
  "[" ++
    String.intercalate ","
      (rules.map (fun r =>
        "\x7b" ++
          String.intercalate ","
            ((match r.name with
              | some n => ["\"name\":" ++ stringifyStr n]
              | none => []) ++
             ["\"match\":" ++ stringifyMatchSpec r.matchSpec] ++
             ["\"operations\":[" ++
               String.intercalate "," (r.operations.map stringifyOperation) ++ "]"]) ++
          "\x7d")) ++
    "]"

/-- `pluginWatermark`: the bracketed marker token, a function of the
validated rule set only. -/
def pluginWatermark (rules : List Rule) : String :=
  "[Tdarr:advanced_audio_transcode_rename_remove:" ++ btoa (stringifyRules rules) ++ "]"

/-! ### Subtitle pass-through and the plugin response -/

/-- The subtitle part of the command preset: either the copied subtitle
indices or `-sn`. -/
inductive SubtitlePart where
  | copySubs (idxs : List Nat) : SubtitlePart
  | sn : SubtitlePart
deriving DecidableEq

/-- Build the subtitle commands: map each subtitle stream with a truthy codec
name other than `'none'`, positionally; fall back to `-sn` when none remain. -/
def buildSubtitles (streams : List Stream) : SubtitlePart :=
  let subtitleStreams := streams.filter (fun s => s.codec_type == "subtitle")
  let kept := (subtitleStreams.enum.filterMap
    (fun is => if !(is.2.codec_name == "") && !(is.2.codec_name == "none")
               then some is.1 else none))
  if kept.isEmpty then .sn else .copySubs kept

/-- The structured command preset (`response.preset`): the audio commands,
the subtitle part and the copyright metadata value
(`copyrightData + pluginWatermark`); the constant video pass-through prefix
is not encoded. -/
structure Preset where
  audio : List ACmd
  subtitles : SubtitlePart
  copyright : String
deriving DecidableEq

/-- The plugin response restricted to its decision content: `processFile`
and the preset (`none` embeds the absent/emptied preset; the constant
container/handBrake/FFmpeg fields and the log text are not modelled). -/
structure Response where
  processFile : Bool := false
  preset : Option Preset := none
deriving DecidableEq

/-- The `plugin(file, librarySettings, inputs)` entry point, parameterised by
the external regex engine. In order: rule validation (abort on error), the
dry-run flag, the watermark, the ffprobe-data guard, the already-processed
guard, audio-track extraction, the per-track pass, and the final response;
in dry-run mode the computed preset is discarded. -/
def plugin (regexTest : String → String → String → Bool)
    (matchAllFn : String → String → String → List (List String))
    (transcodeRulesInput : Json) (dryRunInput : String)
    (file : MediaFile) : Response :=
  match validateTranscodeRules transcodeRulesInput with
  | .error _ => {}
  | .ok transcodeRules =>
    let dryRun := dryRunInput == "true"
    let watermark := pluginWatermark transcodeRules
    match file.ffProbeData with
    | none => {}
    | some streams =>
      if strIncludes file.copyright watermark then {}
      else
        let audioTracks := streams.filter (fun s => s.codec_type == "audio")
        if audioTracks.isEmpty then {}
        else
          let st := processTracks regexTest matchAllFn transcodeRules audioTracks
          let response : Response :=
            if st.requireTranscode then
              { processFile := true,
                preset := some
                  { audio := st.cmds,
                    subtitles := buildSubtitles streams,
                    copyright := file.copyright ++ watermark } }
            else {}
          if dryRun then { response with processFile := false, preset := none } else response

/-! ### Helper functions and lemmas for the theorems -/

/-- A stand-in regex engine for scenarios whose rules carry no title pattern
(the engine is then never consulted). -/
def rt0 : String → String → String → Bool := fun _ _ _ => true

/-- A stand-in match-all engine for scenarios whose operations carry no
numbered placeholders. -/
def maf0 : String → String → String → List (List String) := fun _ _ _ => []

/-- The output index a command allocates, if any: each emitted output track
begins with exactly one `mapCopy` (copies) or one `setCodec` (transcodes). -/
def newOutputIndex : ACmd → Option Nat
  | .mapCopy _ o => some o
  | .setCodec o _ => some o
  | _ => none

/-- The output indices allocated by a command list, in emission order. -/
def outputIndices (cmds : List ACmd) : List Nat :=
  cmds.filterMap newOutputIndex

/-- The number of output tracks a track contributes: the first matching
rule's operation count, or one for a verbatim copy. -/
def outcomeSize (regexTest : String → String → String → Bool)
    (rules : List Rule) (track : Stream) : Nat :=
  match rules.find? (fun r => trackMatches regexTest track r.matchSpec) with
  | some r => r.operations.length
  | none => 1

/-- The copyright marker a response carries (empty for an unchanged plan). -/
def markerOf (r : Response) : String :=
  match r.preset with
  | some p => p.copyright
  | none => ""

theorem matchesAt_self (l : List Char) : matchesAt l l = true := by
  induction l with
  | nil => rfl
  | cons c cs ih => simp [matchesAt, ih]

theorem containsSub_append_self (a p : List Char) : containsSub (a ++ p) p = true := by
  induction a with
  | nil =>
    cases p with
    | nil => rfl
    | cons c cs => simp [containsSub, matchesAt_self]
  | cons c cs ih => simp [containsSub, ih]

theorem string_data_append (a b : String) : (a ++ b).data = a.data ++ b.data := rfl

theorem strIncludes_append_self (a b : String) : strIncludes (a ++ b) b = true := by
  simp [strIncludes, string_data_append, containsSub_append_self]

/-! ### Claim C1 -/

/-- A rule document whose only effect is dropping tracks: every track matches
the wildcard rule, whose operations list is empty. -/
def c1Doc : Json :=
  .arr [.obj [("match", .obj [("codecs", .str "*")]), ("operations", .arr [])]]

/-- A probed file with one audio track. -/
def c1File : MediaFile :=
  { ffProbeData := some [{ codec_type := "audio", codec_name := "aac", channels := 2 }] }

/-- C1: a rule set whose only effect is dropping tracks does NOT yield a
"changed" plan: the engine never sets `requireTranscode` on the drop path
(source lines 450-452), so the run on a one-track file whose track matches a
drop rule returns `processFile = false` with no preset — the code diverges
from the claimed (and tooltip-documented) behaviour at this input. -/
theorem drop_only_rules_leave_plan_unchanged :
    plugin rt0 maf0 c1Doc "false" c1File = { processFile := false, preset := none } := by
  decide

/-! ### Claim C2 -/

/-- C2 counterexample: for the mapping `{comment: false, default: true}` the
encoder yields `-comment+default`: the first flag whose value is true
(`default`) is NOT emitted bare, because the bare form is reserved for the
first entry of the mapping regardless of its value. -/
theorem first_true_flag_not_emitted_bare :
    getDispositionFlags [("comment", false), ("default", true)] = "-comment+default" ∧
    ¬ getDispositionFlags [("comment", false), ("default", true)] = "-commentdefault" := by
  constructor
  · rfl
  · decide

theorem join_cons (s : String) (l : List String) :
    String.join (s :: l) = s ++ String.join l := by
  simp [String.join]
  induction l generalizing s with
  | nil => simp
  | cons t ts ih =>
    simp [List.foldl_cons]
    rw [ih (s ++ t), ih t, ← String.append_assoc]

theorem dispositionFlags_foldl_after_first (rest : List (String × Bool)) (acc : List String) :
    (rest.foldl
      (fun (a : List String × Bool) fv =>
        (a.1 ++ [if fv.2 then (if a.2 then fv.1 else "+" ++ fv.1) else "-" ++ fv.1], false))
      (acc, false)).1 =
      acc ++ rest.map (fun fv => if fv.2 then "+" ++ fv.1 else "-" ++ fv.1) := by
  induction rest generalizing acc with
  | nil => simp
  | cons fv rest ih => simp [List.foldl_cons, ih]

/-- C2 (amended): the encoder emits the FIRST ENTRY of the mapping bare when
its value is true (and `-`-prefixed when false); every true flag after the
first entry is `+`-prefixed and every false flag is `-`-prefixed, in
insertion order. -/
theorem dispositionFlags_first_entry_bare (f : String) (v : Bool) (rest : List (String × Bool)) :
    getDispositionFlags ((f, v) :: rest) =
      (if v then f else "-" ++ f) ++
        String.join (rest.map (fun fv => if fv.2 then "+" ++ fv.1 else "-" ++ fv.1)) ∧
    getDispositionFlags [] = "" := by
  constructor
  · show String.join _ = _
    rw [show ((f, v) :: rest).foldl
        (fun (a : List String × Bool) fv =>
          (a.1 ++ [if fv.2 then (if a.2 then fv.1 else "+" ++ fv.1) else "-" ++ fv.1], false))
        ([], true) =
        rest.foldl
          (fun (a : List String × Bool) fv =>
            (a.1 ++ [if fv.2 then (if a.2 then fv.1 else "+" ++ fv.1) else "-" ++ fv.1], false))
          ([if v then f else "-" ++ f], false) from rfl]
    rw [dispositionFlags_foldl_after_first]
    rw [show ([if v then f else "-" ++ f] :
        List String) ++ rest.map (fun fv => if fv.2 then "+" ++ fv.1 else "-" ++ fv.1) =
        (if v then f else "-" ++ f) ::
          rest.map (fun fv => if fv.2 then "+" ++ fv.1 else "-" ++ fv.1) from rfl]
    exact join_cons _ _
  · rfl

/-! ### Claim C3 -/

/-- The C3 scenario rule document: match eac3 with at most 6 channels,
transcode to ac3 with no explicit bitrate. -/
def c3Doc : Json :=
  .arr [.obj [
    ("match", .obj [("codecs", .arr [.str "eac3"]), ("channels", .str "<=6")]),
    ("operations", .arr [.obj [("transcode", .obj [("codec", .str "ac3")])]])]]

/-- The C3 scenario rule document with the bitrate made explicit (768000). -/
def c3DocExplicit : Json :=
  .arr [.obj [
    ("match", .obj [("codecs", .arr [.str "eac3"]), ("channels", .str "<=6")]),
    ("operations", .arr [.obj [("transcode",
      .obj [("codec", .str "ac3"), ("bitrate", .num 768000)])]])]]

/-- The C3 track: eac3, 6 channels, 768000 bps. -/
def c3File : MediaFile :=
  { ffProbeData := some
      [{ codec_type := "audio", codec_name := "eac3", channels := 6, bit_rate := some 768000 }] }

/-- C3 counterexample: with no explicit bitrate in the operation, the run
emits NO bitrate instruction at all (the audio command list is exactly the
map and codec instructions), so no instruction with value 640000 is present
— the bitrate-emission branch is guarded by the presence of an explicit
`operation.transcode.bitrate` (source line 505). -/
theorem inherited_bitrate_emits_no_instruction :
    (plugin rt0 maf0 c3Doc "false" c3File).preset.map Preset.audio =
      some [ACmd.mapInput 0, ACmd.setCodec 0 "ac3"] ∧
    ¬ ACmd.setBitrate 0 640000 ∈ [ACmd.mapInput 0, ACmd.setCodec 0 "ac3"] := by
  constructor
  · rfl
  · decide

/-- C3 (amended): for the eac3 6ch 768000bps track matched by the rule, a
transcode to ac3 with NO explicit bitrate emits no bitrate instruction
(meaning encoder default), while an EXPLICIT bitrate of 768000 is clamped to
the 640000 AC3 ceiling in the emitted instruction. -/
theorem ac3_bitrate_ceiling_applies_to_explicit_bitrate_only :
    (plugin rt0 maf0 c3Doc "false" c3File).preset.map Preset.audio =
      some [ACmd.mapInput 0, ACmd.setCodec 0 "ac3"] ∧
    (plugin rt0 maf0 c3DocExplicit "false" c3File).preset.map Preset.audio =
      some [ACmd.mapInput 0, ACmd.setCodec 0 "ac3", ACmd.setBitrate 0 640000] := by
  constructor <;> rfl

/-! ### Claim C4 -/

/-- The C4 scenario rule document: transcode truehd to ac3 (6-channel
ceiling) with the title template consisting of the o_channels tag. -/
def c4Doc : Json :=
  .arr [.obj [
    ("match", .obj [("codecs", .arr [.str "truehd"])]),
    ("operations", .arr [.obj [("transcode",
      .obj [("codec", .str "ac3"), ("title", .str "\x7bo_channels\x7d")])]])]]

/-- The C4 track: truehd with 8 channels. -/
def c4File : MediaFile :=
  { ffProbeData := some [{ codec_type := "audio", codec_name := "truehd", channels := 8 }] }

/-- C4: the emitted channel instruction carries the clamped value 6 (AC3
ceiling), while the emitted title renders the o_channels tag as "8": the
title expander substitutes `operation.channels || track.channels` (source
line 359), not the resolved post-clamp value, so the title does not equal
the channel count actually emitted. -/
theorem title_tag_uses_preclamp_channels :
    (plugin rt0 maf0 c4Doc "false" c4File).preset.map Preset.audio =
      some [ACmd.mapInput 0, ACmd.setCodec 0 "ac3",
            ACmd.setChannels 0 6, ACmd.setTitle 0 "8"] := by
  rfl

/-! ### Claim C5 -/

/-- The embedded result of `"ab".matchAll(/(.)/gi)` viewed as capture-group
lists: two matches, the first capturing "a", the second capturing "b". -/
def c5MatchAll : String → String → String → List (List String) :=
  fun _ _ _ => [["a"], ["b"]]

/-- The C5 track, whose original title "ab" the pattern `(.)` matches twice
in global mode. -/
def c5Track : Stream :=
  { codec_type := "audio", codec_name := "aac", channels := 2, title := some "ab" }

/-- C5 counterexample: with two global matches (capture groups "a" then "b")
and the template consisting of the placeholder token for group 1, the
expanded title is "a", not "b": the FIRST match's substitution consumes the
placeholder, so the later match does not determine the final value. -/
theorem repeated_placeholder_not_overwritten_by_later_match :
    getNewTrackTitle c5MatchAll c5Track (some { pattern := "(.)" })
        { title := "\x7b1\x7d" } none = "a" ∧
    ¬ getNewTrackTitle c5MatchAll c5Track (some { pattern := "(.)" })
        { title := "\x7b1\x7d" } none = "b" := by
  constructor
  · rfl
  · decide

/-- C5 (amended): substitutions are applied cumulatively match after match,
but each substitution replaces every occurrence of the placeholder token, so
the FIRST match's capture group determines the final value of a repeated
placeholder: whatever the second match's capture group is, the result stays
the first group's text. -/
theorem first_match_capture_group_wins (g2 : String) :
    getNewTrackTitle (fun _ _ _ => [["a"], [g2]]) c5Track (some { pattern := "(.)" })
        { title := "\x7b1\x7d" } none = "a" := by
  have h1 : getNewTrackTitle (fun _ _ _ => [["a"], [g2]]) c5Track (some { pattern := "(.)" })
      { title := "\x7b1\x7d" } none =
      expandDerivedTags c5Track { title := "\x7b1\x7d" } none
        (captureSubstitutions [["a"], [g2]] "\x7b1\x7d") := rfl
  have h2 : captureSubstitutions [["a"], [g2]] "\x7b1\x7d" = "a" := rfl
  rw [h1, h2]
  rfl

/-! ### Claim C6 -/

/-- C6 counterexample: a rule listing the codec in uppercase (`["EAC3"]`)
does NOT match a track reporting `eac3`: membership lowercases only the
track's codec and compares it verbatim against the listed entries. -/
theorem uppercase_codec_entry_does_not_match :
    trackMatches rt0 { codec_type := "audio", codec_name := "eac3" }
        { codecs := .arr [.str "EAC3"] } = false := by
  decide

/-- C6 (amended): the wildcard passes every track; a negated codec passes
exactly the tracks whose lowercased codec differs from the lowercased negated
codec; a codec set passes exactly the tracks whose LOWERCASED codec is
strictly contained among the listed entries — so a lowercase entry matches a
track reporting the codec in any case, while an uppercase entry matches no
track (illustrated by the eac3 example). -/
theorem codec_test_lowercases_track_side_only
    (rt : String → String → String → Bool) (track : Stream)
    (c : String) (xs : List Json) :
    trackMatches rt track { codecs := .str "*" } = true ∧
    trackMatches rt track { codecs := .str ("!" ++ c) } =
      !(jsToLower track.codec_name == jsToLower c) ∧
    trackMatches rt track { codecs := .arr xs } =
      jsIncludesStr xs (jsToLower track.codec_name) ∧
    trackMatches rt0 { codec_type := "audio", codec_name := "EAC3" }
        { codecs := .arr [.str "eac3"] } = true := by
  refine ⟨rfl, ?_, ?_, by decide⟩
  · show (if !(codecTestPasses track.codec_name (.str ("!" ++ c))) then false else _) = _
    rw [show codecTestPasses track.codec_name (.str ("!" ++ c)) =
        !(jsToLower track.codec_name == jsToLower c) from rfl]
    cases jsToLower track.codec_name == jsToLower c <;> rfl
  · show (if !(codecTestPasses track.codec_name (.arr xs)) then false else _) = _
    rw [show codecTestPasses track.codec_name (.arr xs) =
        jsIncludesStr xs (jsToLower track.codec_name) from rfl]
    cases jsIncludesStr xs (jsToLower track.codec_name) <;> rfl

/-! ### Claim C7 -/

theorem outputIndices_append (a b : List ACmd) :
    outputIndices (a ++ b) = outputIndices a ++ outputIndices b := by
  simp [outputIndices, List.filterMap_append]

theorem outputIndices_opt_single (p : Prop) [Decidable p] (x : ACmd)
    (h : newOutputIndex x = none) :
    outputIndices (if p then [x] else []) = [] := by
  split <;> simp [outputIndices, List.filterMap, h]

theorem outputIndices_disp_match (o : Nat) (d : Option (List (String × Bool))) :
    outputIndices
      (match d with
       | some dd => [ACmd.setDispositions o (getDispositionFlags dd)]
       | none => []) = [] := by
  cases d <;> simp [outputIndices, List.filterMap, newOutputIndex]

theorem outputIndices_applyOperation
    (maf : String → String → String → List (List String))
    (track : Stream) (mt : Option TitleMatch) (i o : Nat) (op : Operation) :
    outputIndices (applyOperation maf track mt i o op) = [o] := by
  cases op with
  | copy c =>
    simp only [applyOperation, applyCopyOp, outputIndices_append]
    cases truthyStr c.title <;> cases c.dispositions <;>
      simp [outputIndices, List.filterMap, newOutputIndex]
  | transcode t =>
    simp only [applyOperation, applyTransOp, outputIndices_append]
    simp only [outputIndices_opt_single, outputIndices_disp_match, newOutputIndex]
    simp [outputIndices, List.filterMap, newOutputIndex]

theorem applyOperations_foldl_spec
    (maf : String → String → String → List (List String))
    (track : Stream) (mt : Option TitleMatch) (i : Nat) :
    ∀ (ops : List Operation) (o : Nat) (acc : List ACmd),
      (ops.foldl
        (fun acc2 op => (acc2.1 + 1, acc2.2 ++ applyOperation maf track mt i acc2.1 op))
        (o, acc)).1 = o + ops.length ∧
      outputIndices
        (ops.foldl
          (fun acc2 op => (acc2.1 + 1, acc2.2 ++ applyOperation maf track mt i acc2.1 op))
          (o, acc)).2 = outputIndices acc ++ List.range' o ops.length := by
  intro ops
  induction ops with
  | nil => intro o acc; simp
  | cons op rest ih =>
    intro o acc
    have h := ih (o + 1) (acc ++ applyOperation maf track mt i o op)
    constructor
    · rw [List.foldl_cons, h.1]
      simp only [List.length_cons]
      omega
    · rw [List.foldl_cons, h.2, outputIndices_append, outputIndices_applyOperation,
        List.append_assoc]
      simp [List.length_cons, List.range'_succ]

theorem applyOperations_spec
    (maf : String → String → String → List (List String))
    (track : Stream) (mt : Option TitleMatch) (i o : Nat) (ops : List Operation) :
    (applyOperations maf track mt i o ops).1 = o + ops.length ∧
    outputIndices (applyOperations maf track mt i o ops).2 = List.range' o ops.length := by
  have h := applyOperations_foldl_spec maf track mt i ops o []
  exact ⟨h.1, by simpa [outputIndices] using h.2⟩

theorem processTrack_spec (rt : String → String → String → Bool)
    (maf : String → String → String → List (List String))
    (rules : List Rule) (st : SynthState) (track : Stream) :
    (processTrack rt maf rules st track).inIdx = st.inIdx + 1 ∧
    (processTrack rt maf rules st track).outIdx = st.outIdx + outcomeSize rt rules track ∧
    outputIndices (processTrack rt maf rules st track).cmds =
      outputIndices st.cmds ++ List.range' st.outIdx (outcomeSize rt rules track) := by
  unfold processTrack outcomeSize
  cases hfind : rules.find? (fun r => trackMatches rt track r.matchSpec) with
  | none =>
    simp [outputIndices_append, outputIndices, List.filterMap, newOutputIndex,
      List.range'_one]
  | some r =>
    cases hops : r.operations with
    | nil => simp [hops]
    | cons op rest =>
      have h := applyOperations_spec maf track r.matchSpec.title st.inIdx st.outIdx
        (op :: rest)
      refine ⟨by simp [hops], ?_, ?_⟩
      · simp only [hops, List.isEmpty_cons, Bool.false_eq_true, if_false]
        rw [h.1]
      · simp only [hops, List.isEmpty_cons, Bool.false_eq_true, if_false]
        rw [outputIndices_append, h.2]

theorem processTracks_foldl_spec (rt : String → String → String → Bool)
    (maf : String → String → String → List (List String))
    (rules : List Rule) :
    ∀ (tracks : List Stream) (st : SynthState),
      (tracks.foldl (processTrack rt maf rules) st).inIdx = st.inIdx + tracks.length ∧
      (tracks.foldl (processTrack rt maf rules) st).outIdx =
        st.outIdx + (tracks.map (outcomeSize rt rules)).sum ∧
      outputIndices (tracks.foldl (processTrack rt maf rules) st).cmds =
        outputIndices st.cmds ++
          List.range' st.outIdx ((tracks.map (outcomeSize rt rules)).sum) := by
  intro tracks
  induction tracks with
  | nil => intro st; simp
  | cons track rest ih =>
    intro st
    have hstep := processTrack_spec rt maf rules st track
    have h := ih (processTrack rt maf rules st track)
    refine ⟨?_, ?_, ?_⟩
    · rw [List.foldl_cons, h.1, hstep.1]
      simp only [List.length_cons]
      omega
    · rw [List.foldl_cons, h.2.1, hstep.2.1]
      simp only [List.map_cons, List.sum_cons]
      omega
    · rw [List.foldl_cons, h.2.2, hstep.2.2, hstep.2.1, List.append_assoc]
      simp only [List.map_cons, List.sum_cons]
      congr 1
      rw [show st.outIdx + outcomeSize rt rules track =
          st.outIdx + 1 * outcomeSize rt rules track from by omega]
      rw [List.range'_append st.outIdx (outcomeSize rt rules track)
        ((rest.map (outcomeSize rt rules)).sum) 1]
      congr 1
      omega

/-- C7: every track yields exactly one outcome — drop (first matching rule
with an empty operations list: state unchanged except the input index),
verbatim copy (no matching rule: one `mapCopy` emitted), or the first
matching rule's operations (one output per operation) — the input index
advances by exactly one per track regardless of outcome, the output index
advances by the number of emitted outputs, and the output indices allocated
over a whole run are exactly `0, 1, …, outIdx-1`, consecutive from zero. -/
theorem per_track_outcome_and_index_bookkeeping
    (rt : String → String → String → Bool)
    (maf : String → String → String → List (List String))
    (rules : List Rule) (tracks : List Stream) :
    (processTracks rt maf rules tracks).inIdx = tracks.length ∧
    (processTracks rt maf rules tracks).outIdx =
      (tracks.map (outcomeSize rt rules)).sum ∧
    outputIndices (processTracks rt maf rules tracks).cmds =
      List.range (processTracks rt maf rules tracks).outIdx ∧
    ∀ (st : SynthState) (track : Stream),
      (processTrack rt maf rules st track).inIdx = st.inIdx + 1 ∧
      ((∃ r, rules.find? (fun rr => trackMatches rt track rr.matchSpec) = some r ∧
          r.operations = [] ∧
          processTrack rt maf rules st track = { st with inIdx := st.inIdx + 1 }) ∨
       (rules.find? (fun rr => trackMatches rt track rr.matchSpec) = none ∧
          processTrack rt maf rules st track =
            { st with inIdx := st.inIdx + 1, outIdx := st.outIdx + 1,
                      cmds := st.cmds ++ [ACmd.mapCopy st.inIdx st.outIdx] }) ∨
       (∃ r, rules.find? (fun rr => trackMatches rt track rr.matchSpec) = some r ∧
          r.operations ≠ [] ∧
          (processTrack rt maf rules st track).outIdx =
            st.outIdx + r.operations.length ∧
          (processTrack rt maf rules st track).requireTranscode = true)) := by
  have h := processTracks_foldl_spec rt maf rules tracks ({} : SynthState)
  refine ⟨?_, ?_, ?_, ?_⟩
  · rw [show processTracks rt maf rules tracks =
        tracks.foldl (processTrack rt maf rules) {} from rfl, h.1]
    simp
  · rw [show processTracks rt maf rules tracks =
        tracks.foldl (processTrack rt maf rules) {} from rfl, h.2.1]
    simp
  · rw [show processTracks rt maf rules tracks =
        tracks.foldl (processTrack rt maf rules) {} from rfl, h.2.2, h.2.1]
    simp [outputIndices, List.range_eq_range']
  · intro st track
    refine ⟨(processTrack_spec rt maf rules st track).1, ?_⟩
    unfold processTrack
    cases hfind : rules.find? (fun r => trackMatches rt track r.matchSpec) with
    | none =>
      right; left
      exact ⟨rfl, rfl⟩
    | some r =>
      cases hops : r.operations with
      | nil =>
        left
        exact ⟨r, rfl, hops, by simp [hops]⟩
      | cons op rest =>
        right; right
        have h2 := (applyOperations_spec maf track r.matchSpec.title st.inIdx st.outIdx
          (op :: rest)).1
        refine ⟨r, rfl, by simp [hops], ?_, by simp [hops]⟩
        simp only [hops, List.isEmpty_cons, Bool.false_eq_true, if_false]
        rw [h2]

/-! ### Claim C8 -/

theorem validateRuleList_length :
    ∀ (i : Nat) (xs : List Json) (rules : List Rule),
      validateRuleList i xs = .ok rules → rules.length = xs.length := by
  intro i xs
  induction xs generalizing i with
  | nil => intro rules h; cases h; rfl
  | cons x rest ih =>
    intro rules h
    simp only [validateRuleList] at h
    cases hr : validateRule i x with
    | error e => rw [hr] at h; simp at h
    | ok rule =>
      rw [hr] at h
      cases hrest : validateRuleList (i + 1) rest with
      | error e => rw [hrest] at h; simp at h
      | ok rs =>
        rw [hrest] at h
        simp at h
        subst h
        simp [ih (i + 1) rs hrest]

/-- C8: the watermark token is a function of the validated rule set alone
(`pluginWatermark rules`); whenever a run with a valid rule document produces
a preset, the copyright marker it emits is the prior marker with exactly that
token appended, re-running the engine with the same rule document on the file
carrying that marker yields the unchanged no-op response, and in general any
file whose marker already contains the token is answered with the unchanged
no-op response — the watermark guard returns before the per-track pass. -/
theorem watermark_idempotence
    (rt : String → String → String → Bool)
    (maf : String → String → String → List (List String))
    (doc : Json) (rules : List Rule) (file : MediaFile)
    (hv : validateTranscodeRules doc = .ok rules)
    (hrun : (plugin rt maf doc "false" file).preset.isSome = true) :
    markerOf (plugin rt maf doc "false" file) =
      file.copyright ++ pluginWatermark rules ∧
    plugin rt maf doc "false"
        { file with copyright := markerOf (plugin rt maf doc "false" file) } =
      { processFile := false, preset := none } ∧
    (∀ (f2 : MediaFile) (s2 : List Stream), f2.ffProbeData = some s2 →
        strIncludes f2.copyright (pluginWatermark rules) = true →
        plugin rt maf doc "false" f2 = { processFile := false, preset := none }) := by
  have hgate : ∀ (f2 : MediaFile) (s2 : List Stream), f2.ffProbeData = some s2 →
      strIncludes f2.copyright (pluginWatermark rules) = true →
      plugin rt maf doc "false" f2 = { processFile := false, preset := none } := by
    intro f2 s2 hfp hin
    unfold plugin
    rw [hv, hfp]
    simp [hin]
  cases hfp : file.ffProbeData with
  | none =>
    have hP : plugin rt maf doc "false" file = {} := by
      unfold plugin; rw [hv, hfp]
    rw [hP] at hrun
    exact absurd hrun (by simp)
  | some streams =>
    cases hin : strIncludes file.copyright (pluginWatermark rules) with
    | true =>
      have hP : plugin rt maf doc "false" file = {} := by
        unfold plugin; rw [hv, hfp]; simp [hin]
      rw [hP] at hrun
      exact absurd hrun (by simp)
    | false =>
      cases hempty : (streams.filter (fun s => s.codec_type == "audio")).isEmpty with
      | true =>
        have hP : plugin rt maf doc "false" file = {} := by
          unfold plugin; rw [hv, hfp]; simp [hin, hempty]
        rw [hP] at hrun
        exact absurd hrun (by simp)
      | false =>
        cases hreq : (processTracks rt maf rules
            (streams.filter (fun s => s.codec_type == "audio"))).requireTranscode with
        | false =>
          have hP : plugin rt maf doc "false" file = {} := by
            unfold plugin; rw [hv, hfp]; simp [hin, hempty, hreq]
          rw [hP] at hrun
          exact absurd hrun (by simp)
        | true =>
          have hP : plugin rt maf doc "false" file =
              { processFile := true,
                preset := some
                  { audio := (processTracks rt maf rules
                      (streams.filter (fun s => s.codec_type == "audio"))).cmds,
                    subtitles := buildSubtitles streams,
                    copyright := file.copyright ++ pluginWatermark rules } } := by
            unfold plugin; rw [hv, hfp]; simp [hin, hempty, hreq]
          have hmark : markerOf (plugin rt maf doc "false" file) =
              file.copyright ++ pluginWatermark rules := by
            rw [hP]; rfl
          refine ⟨hmark, ?_, hgate⟩
          · refine hgate _ streams rfl ?_
            show strIncludes (markerOf (plugin rt maf doc "false" file))
              (pluginWatermark rules) = true
            rw [hmark]
            exact strIncludes_append_self _ _

/-- The C8 witness rule document: one wildcard rule with a copy operation. -/
def c8Doc : Json :=
  .arr [.obj [("match", .obj [("codecs", .str "*")]),
              ("operations", .arr [.obj [("copy", .obj [])]])]]

/-- The validated form of `c8Doc`. -/
def c8Rules : List Rule :=
  [{ matchSpec := { codecs := .str "*" }, operations := [.copy {}] }]

/-- The C8 witness file: one audio track, empty prior marker. -/
def c8File : MediaFile :=
  { ffProbeData := some [{ codec_type := "audio", codec_name := "aac", channels := 2 }] }

theorem watermark_idempotence_witness :
    validateTranscodeRules c8Doc = .ok c8Rules ∧
    (plugin rt0 maf0 c8Doc "false" c8File).preset.isSome = true ∧
    plugin rt0 maf0 c8Doc "false"
        { c8File with copyright := markerOf (plugin rt0 maf0 c8Doc "false" c8File) } =
      { processFile := false, preset := none } :=
  ⟨rfl, rfl,
    (watermark_idempotence rt0 maf0 c8Doc c8Rules c8File rfl rfl).2.1⟩

/-! ### Claim C9 -/

/-- C9: an invalid rule document aborts the run — the engine returns the
unchanged response (`processFile = false`, no preset) for every file and
dry-run setting, applying no rule to any track; and validation is
all-or-nothing: a successful validation consumed every rule of the document
(so a document with any failing rule can never yield a partial rule set). -/
theorem invalid_rule_document_aborts
    (rt : String → String → String → Bool)
    (maf : String → String → String → List (List String))
    (doc : Json) (dry : String) (file : MediaFile) (e : String)
    (hv : validateTranscodeRules doc = .error e) :
    plugin rt maf doc dry file = { processFile := false, preset := none } ∧
    (∀ (i : Nat) (xs : List Json) (rules : List Rule),
        validateRuleList i xs = .ok rules → rules.length = xs.length) := by
  constructor
  · unfold plugin
    rw [hv]
  · exact validateRuleList_length

theorem invalid_rule_document_aborts_witness :
    validateTranscodeRules (Json.str "not an array") =
      .error "Expected a JSON array of rules." ∧
    plugin rt0 maf0 (Json.str "not an array") "false" c8File =
      { processFile := false, preset := none } :=
  ⟨rfl,
    (invalid_rule_document_aborts rt0 maf0 (Json.str "not an array") "false" c8File
      "Expected a JSON array of rules." rfl).1⟩

/-! ### Claim C10 -/

/-- C10: an omitted `caseSensitive` flag behaves exactly as the value
`false`: the Selector Matcher consults the regex engine with the
case-insensitive flags and the Title Template Expander with the global
case-insensitive flags in both cases, so both results coincide for every
regex engine, track, match specification, operation and bitrate. -/
theorem omitted_caseSensitive_defaults_to_case_insensitive
    (rt : String → String → String → Bool)
    (maf : String → String → String → List (List String))
    (track : Stream) (spec : MatchSpec) (p : String)
    (op : OpTitleFields) (br : Option Int) :
    trackMatches rt track
        { spec with title := some { pattern := p, caseSensitive := none } } =
      trackMatches rt track
        { spec with title := some { pattern := p, caseSensitive := some false } } ∧
    getNewTrackTitle maf track (some { pattern := p, caseSensitive := none }) op br =
      getNewTrackTitle maf track (some { pattern := p, caseSensitive := some false }) op br := by
  constructor
  · rfl
  · rfl


end AdvancedAudio
